import Mathlib

/-!
Verification development for the geodeconstructor repository.

The development shallowly embeds the two core modules:

* geodeconstructor/history/locations.py — the chronological filter
  (iter_chronologically) and the path segmenter
  (iter_unique_path_by_attribute), embedded as pure list functions.
  Python generators are embedded as functions returning the list of all
  yielded values; an uncaught Python exception is embedded as an
  Except.error for the whole run.
* geodeconstructor/reverse_geocode/__init__.py — the gazetteer
  (GeocodeData) with its nearest-neighbour query.  The scipy cKDTree is
  embedded as a first-index argmin of squared Euclidean distance over the
  reference coordinates (the documented behaviour of cKDTree.query with
  k = 1); float64 coordinates are embedded as exact rationals.  The
  parallel lists coordinates/locations built by GeocodeData.extract are
  embedded as a single list of GeoEntry records kept in load order.

Dynamic getattr-based attribute selection is embedded as a closed
enumeration Attr with an accessor, per the repository's two call sites
(city, country).
-/

namespace Geodeconstructor

/-- Python values that occur in the timestampMs field of a location
record: an int or a string (the Takeout export uses strings). -/
inductive TS where
  | int (n : Int)
  | str (s : String)
  deriving DecidableEq, Repr

/-- A raw location record, per the input record shape: latitudeE7 and
longitudeE7 are ints, timestampMs may be absent (missing dict key). -/
structure RawItem where
  latitudeE7 : Int
  longitudeE7 : Int
  timestampMs : Option TS
  deriving DecidableEq, Repr

/-- Python errors raised by the embedded code paths. -/
inductive PyErr where
  | indexError
  | keyError
  | valueError
  deriving DecidableEq, Repr

/-- Python int(v) for a timestampMs value v: the identity on ints,
string parsing on strings (failure raises ValueError, embedded as
none). -/
def pyInt : TS → Option Int
  | .int n => some n
  | .str s => s.toInt?

/-- Evaluation of int(item["timestampMs"]): KeyError when the key is
missing, ValueError when the string does not parse. -/
def getTs (item : RawItem) : Except PyErr Int :=
  match item.timestampMs with
  | none => .error .keyError
  | some t =>
    match pyInt t with
    | some n => .ok n
    | none => .error .valueError

/-- Total timestamp projection used to state sortedness facts; on the
inputs the theorems quantify over it agrees with getTs. -/
def tsVal (item : RawItem) : Int :=
  match item.timestampMs with
  | some (.int n) => n
  | some (.str s) => s.toInt?.getD 0
  | none => 0

/-- Embedding of _default_filter_func: item.get("timestampMs", 0) != 0.
In Python an int value equals 0 only when it is the int 0, and a string
value never equals the int 0, so every string timestamp is kept. -/
def _default_filter_func (item : RawItem) : Bool :=
  match item.timestampMs with
  | none => false
  | some (.int n) => n != 0
  | some (.str _) => true

/-- Embedding of _default_key_func: item.get("timestampMs"). -/
def _default_key_func (item : RawItem) : Option TS :=
  item.timestampMs

/-- Python comparison of two timestampMs key values as performed by
sorted(): ints compare numerically, strings compare lexicographically.
Comparing an int with a string (or None with either) raises TypeError in
Python; the embedding makes those cases total by ranking
None < int < str, and every theorem below confines itself to
homogeneous key lists, where the embedding and Python agree. -/
def pyKeyLe : Option TS → Option TS → Bool
  | none, _ => true
  | some _, none => false
  | some (.int m), some (.int n) => m ≤ n
  | some (.str _), some (.int _) => false
  | some (.str s), some (.str t) => s ≤ t
  | some (.int _), some (.str _) => true

/-- Record comparison induced by the default key function. -/
def _default_sort_le (a b : RawItem) : Bool :=
  pyKeyLe (_default_key_func a) (_default_key_func b)

/-- Embedding of iter_chronologically: filter with filter_func, then
sort.  Python's sorted(xs, key=k) sorts by comparisons of the keys; the
embedding takes the induced record comparison le directly (for a key
function k into an ordered type, le a b is k a decide-le k b). -/
def iter_chronologically {α : Type} (list_object : List α)
    (filter_func : α → Bool) (le : α → α → Bool) : List α :=
  (list_object.filter filter_func).mergeSort le

/-- Embedding of the Coordinate dataclass of components.py, restricted
to the fields the core reads (the geopy machinery is out of scope). -/
structure Coordinate where
  latitude : Rat
  longitude : Rat
  city : String
  country : String
  deriving DecidableEq, Repr

/-- Closed enumeration of the attributes selected by name at the two
call sites (iter_unique_city_path, iter_unique_country_path). -/
inductive Attr where
  | city
  | country
  deriving DecidableEq, Repr

/-- Embedding of getattr(coordinate, attribute). -/
def Coordinate.attr (c : Coordinate) : Attr → String
  | .city => c.city
  | .country => c.country

/-- A resolver function standing for Coordinate.init_with_georeverse:
the segmenter is parameterised over it, and the gazetteer-backed
instance is defined below. -/
abbrev Georeverse := Rat → Rat → Coordinate

/-- Resolution of one raw record: latitudeE7 / 10000000 and
longitudeE7 / 10000000 (exact rational division embedding Python float
division of ints) fed to the resolver. -/
def resolveOf (georeverse : Georeverse) (item : RawItem) : Coordinate :=
  georeverse ((item.latitudeE7 : Rat) / 10000000)
    ((item.longitudeE7 : Rat) / 10000000)

/-- A TransitionEvent: the tuple yielded by the segmenter. -/
structure Event where
  previousPlace : Option Coordinate
  previousTimestampMs : Option Int
  nextPlace : Coordinate
  nextTimestampMs : Int
  deriving DecidableEq, Repr

/-- The body of the for-loop of iter_unique_path_by_attribute over
indices 1 .. n-2, in recursive form.  cur is current_coordinate (the
resolution of the element preceding the head of the remaining list),
lastTs is int(last_location["timestampMs"]).  On an attribute change the
event (current, lastTs, next, nextTs) is yielded and lastTs becomes
nextTs; in both cases current becomes the next coordinate.  The
timestamp of a next element is only parsed when an event is yielded,
exactly as in the source. -/
def unique_path_loop (georeverse : Georeverse) (watched : Attr) :
    Coordinate → Int → List RawItem → Except PyErr (List Event)
  | _, _, [] => .ok []
  | cur, lastTs, x :: rest =>
    let nextC := resolveOf georeverse x
    if nextC.attr watched = cur.attr watched then
      unique_path_loop georeverse watched nextC lastTs rest
    else
      match getTs x with
      | .error e => .error e
      | .ok nextTs =>
        match unique_path_loop georeverse watched nextC nextTs rest with
        | .error e => .error e
        | .ok evs => .ok (⟨some cur, some lastTs, nextC, nextTs⟩ :: evs)

/-- Embedding of iter_unique_path_by_attribute.  The filtered, sorted
list is materialised; element 0 produces the initial event
(None, None, first resolution, first timestamp) — an empty filtered list
makes locations_chronological[0] raise IndexError.  The loop runs over
range(1, n - 1): with fewer than three elements it never runs; otherwise
current_coordinate is first initialised from element 1 (the second
element) and each iteration compares element index+1 against it. -/
def iter_unique_path_by_attribute (georeverse : Georeverse)
    (watched : Attr) (locations : List RawItem)
    (filter_func : RawItem → Bool) (le : RawItem → RawItem → Bool) :
    Except PyErr (List Event) :=
  match iter_chronologically locations filter_func le with
  | [] => .error .indexError
  | initial_location :: rest =>
    match getTs initial_location with
    | .error e => .error e
    | .ok initial_timestamp =>
      let initial_coordinate := resolveOf georeverse initial_location
      let ev0 : Event := ⟨none, none, initial_coordinate, initial_timestamp⟩
      match rest with
      | [] => .ok [ev0]
      | second :: rest2 =>
        match rest2 with
        | [] => .ok [ev0]
        | _ :: _ =>
          match unique_path_loop georeverse watched
              (resolveOf georeverse second) initial_timestamp rest2 with
          | .error e => .error e
          | .ok evs => .ok (ev0 :: evs)

/-- One reference record of the gazetteer: the pairing of one element of
the coordinates list with the corresponding locations dict built in
lockstep by GeocodeData.extract.  country is the mutable country key of
the location dict: absent (none) after extract, written by query. -/
structure GeoEntry where
  latitude : Rat
  longitude : Rat
  country_code : String
  city : String
  country : Option String
  deriving DecidableEq, Repr

/-- The gazetteer: reference entries in load order plus the
country-code-to-name table loaded by load_countries (an assoc list;
the CSV has one row per code, so lookup of the first hit embeds the
Python dict). -/
structure GeocodeData where
  entries : List GeoEntry
  countries : List (String × String)
  deriving DecidableEq, Repr

/-- Coordinate pair of a reference entry. -/
def GeoEntry.pos (e : GeoEntry) : Rat × Rat :=
  (e.latitude, e.longitude)

/-- Squared Euclidean distance over raw degree coordinates, the metric
minimised by the nearest-neighbour search (no geodesic correction). -/
def sqDist (p q : Rat × Rat) : Rat :=
  (p.1 - q.1) ^ 2 + (p.2 - q.2) ^ 2

/-- Nearest-neighbour search of the spatial index: the first index
attaining the minimal squared distance to p, with its distance.  none
exactly when the entry list is empty. -/
def nearestAux (p : Rat × Rat) : List GeoEntry → Option (Nat × Rat)
  | [] => none
  | e :: es =>
    let d := sqDist e.pos p
    match nearestAux p es with
    | none => some (0, d)
    | some (j, dj) => if d ≤ dj then some (0, d) else some (j + 1, dj)

/-- Index returned by tree.query for one query point. -/
def nearestIdx (p : Rat × Rat) (es : List GeoEntry) : Option Nat :=
  (nearestAux p es).map Prod.fst

/-- self.countries.get(code, ''). -/
def lookupCountry (countries : List (String × String)) (code : String) :
    String :=
  (countries.lookup code).getD ""

/-- The mutation performed on a result dict:
result['country'] = self.countries.get(result['country_code'], ''). -/
def setCountry (countries : List (String × String)) (e : GeoEntry) :
    GeoEntry :=
  { e with country := some (lookupCountry countries e.country_code) }

/-- Placeholder entry for the unreachable default of a list lookup whose
index is known to be in range. -/
def dummyEntry : GeoEntry :=
  ⟨0, 0, "", "", none⟩

/-- The effect on the stored location dicts of the loop
for result in results: result['country'] = ... — the dict at each
position listed in indices receives its country value.  The Nat
argument is the position of the list head within the full entry
list. -/
def applyCountryWrites (countries : List (String × String))
    (indices : List Nat) : List GeoEntry → Nat → List GeoEntry
  | [], _ => []
  | e :: es, i =>
    (if indices.contains i then setCountry countries e else e)
      :: applyCountryWrites countries indices es (i + 1)

/-- Embedding of GeocodeData.query.  tree.query on an empty query-point
list raises inside scipy (an empty array does not consist of
2-dimensional vectors), which the bare except turns into the
ValueError "Could not identify from coordinates ...".  With a nonempty
query list each point gets the index of its nearest entry; against an
empty entry list the subsequent self.locations[index] raises IndexError.
The result dicts are the stored location dicts themselves, so writing
their country key mutates the gazetteer: the embedding returns the
updated gazetteer alongside the results, and each result is the updated
entry at its index. -/
def GeocodeData.query (gd : GeocodeData) (coordinates : List (Rat × Rat)) :
    Except PyErr (List GeoEntry × GeocodeData) :=
  if coordinates.isEmpty then .error .valueError
  else if gd.entries.isEmpty then .error .indexError
  else
    let indices := coordinates.map (fun p => (nearestIdx p gd.entries).getD 0)
    let newEntries := applyCountryWrites gd.countries indices gd.entries 0
    let results := indices.map (fun i => newEntries.getD i dummyEntry)
    .ok (results, { gd with entries := newEntries })

/-- Embedding of reverse_coordinates: gd.query([coordinate])[0].  The
singleton query always returns a singleton result list on success, so
the [0] access fails only through query itself. -/
def reverse_coordinates (gd : GeocodeData) (coordinate : Rat × Rat) :
    Except PyErr (GeoEntry × GeocodeData) :=
  match gd.query [coordinate] with
  | .error e => .error e
  | .ok ([], _) => .error .indexError
  | .ok (r :: _, gd2) => .ok (r, gd2)

/-- Embedding of Coordinate.init_with_georeverse in the local-gazetteer
branch of Coordinate.reverse: resolve, then read location["country"] and
location["city"] (a missing country key would raise KeyError). -/
def init_with_georeverse (gd : GeocodeData) (latitude longitude : Rat) :
    Except PyErr (Coordinate × GeocodeData) :=
  match reverse_coordinates gd (latitude, longitude) with
  | .error e => .error e
  | .ok (loc, gd2) =>
    match loc.country with
    | none => .error .keyError
    | some c => .ok (⟨latitude, longitude, loc.city, c⟩, gd2)

/-- The value computed by a successful single-point resolution, as a
pure function of the gazetteer: the nearest entry's city, and its
country name through the country table.  Used to instantiate the
segmenter's resolver; the lemma init_with_georeverse_resolve below
shows it agrees with the stateful path. -/
def GeocodeData.resolve (gd : GeocodeData) (latitude longitude : Rat) :
    Coordinate :=
  match nearestIdx (latitude, longitude) gd.entries with
  | none => ⟨latitude, longitude, "", ""⟩
  | some i =>
    let e := gd.entries.getD i dummyEntry
    ⟨latitude, longitude, e.city, lookupCountry gd.countries e.country_code⟩

/-- Timestamps mentioned by one event, in yield order: the previous
timestamp when present, then the next timestamp. -/
def evTss (e : Event) : List Int :=
  e.previousTimestampMs.toList ++ [e.nextTimestampMs]

/-- Every record of the list carries an int timestampMs (the shape under
which Python never raises while parsing or comparing timestamps). -/
def allTsInt (l : List RawItem) : Prop :=
  ∀ x ∈ l, ∃ n : Int, x.timestampMs = some (.int n)

/-- Number of events the loop emits from the remaining list, given the
resolution carried as current_coordinate: one per element whose resolved
attribute differs from the previous resolution. -/
def switchCount (georeverse : Georeverse) (watched : Attr) :
    Coordinate → List RawItem → Nat
  | _, [] => 0
  | cur, x :: rest =>
    let nx := resolveOf georeverse x
    (if nx.attr watched = cur.attr watched then 0 else 1)
      + switchCount georeverse watched nx rest

/-- Number of boundaries between consecutive elements of the list whose
resolved watched attribute differs. -/
def adjDiffCount (georeverse : Georeverse) (watched : Attr) :
    List RawItem → Nat
  | x :: y :: rest =>
    (if (resolveOf georeverse y).attr watched
        = (resolveOf georeverse x).attr watched then 0 else 1)
      + adjDiffCount georeverse watched (y :: rest)
  | _ => 0

/-- Modelled from the spec: a record whose timestampMs "is missing or
zero" — absent, or parseable to the int64 value 0 (the spec admits
string or int values parseable to int64). -/
def timestampMissingOrZero (item : RawItem) : Prop :=
  item.timestampMs = none ∨ item.timestampMs.bind pyInt = some 0

/-! Concrete objects for the scenario theorems and witnesses. -/

/-- A resolver for segmenter-only statements: city "c" everywhere,
country "X" at latitude 0 and "Y" elsewhere. -/
def demoReverse : Georeverse :=
  fun la lo => ⟨la, lo, "c", if la = 0 then "X" else "Y"⟩

/-- Raw item with the given E7 coordinates and timestamp value. -/
def mkItem (la lo : Int) (t : TS) : RawItem :=
  ⟨la, lo, some t⟩

/-- Two-entry gazetteer for the country-segmentation scenario: a US
entry at (10, 10) and an FR entry at (50, 50). -/
def gd3 : GeocodeData :=
  ⟨[⟨10, 10, "US", "USCity", none⟩, ⟨50, 50, "FR", "FRCity", none⟩],
   [("US", "US"), ("FR", "FR")]⟩

/-- The four samples (timestampMs, country) = (100, US), (200, US),
(300, FR), (400, FR): the first two at (10, 10), the last two at
(50, 50). -/
def samples3 : List RawItem :=
  [mkItem 100000000 100000000 (.int 100),
   mkItem 100000000 100000000 (.int 200),
   mkItem 500000000 500000000 (.int 300),
   mkItem 500000000 500000000 (.int 400)]

/-- Three samples whose watched attribute differs between the first and
second samples (US then FR) and nowhere later. -/
def samplesFirstDiffer : List RawItem :=
  [mkItem 100000000 100000000 (.int 100),
   mkItem 500000000 500000000 (.int 200),
   mkItem 500000000 500000000 (.int 300)]

/-- Single-entry gazetteer: (0.0, 0.0, "XX", "Origin") with country
table mapping "XX" to "Originland". -/
def gdXX : GeocodeData :=
  ⟨[⟨0, 0, "XX", "Origin", none⟩], [("XX", "Originland")]⟩

/-- The gazetteer state after any successful query against gdXX: the
stored location dict now carries the country key. -/
def gdXXafter : GeocodeData :=
  ⟨[⟨0, 0, "XX", "Origin", some "Originland"⟩], [("XX", "Originland")]⟩

/-- Record with the string timestamp "9". -/
def item9 : RawItem := mkItem 1 1 (.str "9")

/-- Record with the string timestamp "10". -/
def item10 : RawItem := mkItem 2 2 (.str "10")

/-- Record whose timestampMs is the string "0": a zero timestamp in the
spec's reading, kept by the default filter. -/
def itemStrZero : RawItem := mkItem 0 0 (.str "0")

/-- Witness sample at latitude 0 (country "X" under demoReverse). -/
def wit0 : RawItem := mkItem 0 0 (.int 100)

/-- Witness sample at latitude 10 (country "Y" under demoReverse). -/
def wit1 : RawItem := mkItem 100000000 0 (.int 200)

/-- Witness sample at latitude 10, later timestamp. -/
def wit2 : RawItem := mkItem 100000000 0 (.int 300)

/-! Helper lemmas about the default sort comparison. -/

theorem pyKeyLe_trans (a b c : Option TS) (hab : pyKeyLe a b = true)
    (hbc : pyKeyLe b c = true) : pyKeyLe a c = true := by
  rcases a with _ | (m | s) <;> rcases b with _ | (n | t) <;>
    rcases c with _ | (k | u) <;>
    simp_all [pyKeyLe] <;> exact le_trans hab hbc

theorem pyKeyLe_total (a b : Option TS) :
    (pyKeyLe a b || pyKeyLe b a) = true := by
  rcases a with _ | (m | s) <;> rcases b with _ | (n | t) <;>
    simp_all [pyKeyLe] <;> exact le_total _ _

theorem default_sort_le_trans (a b c : RawItem)
    (hab : _default_sort_le a b = true) (hbc : _default_sort_le b c = true) :
    _default_sort_le a c = true :=
  pyKeyLe_trans _ _ _ hab hbc

theorem default_sort_le_total (a b : RawItem) :
    (_default_sort_le a b || _default_sort_le b a) = true :=
  pyKeyLe_total _ _

theorem iter_chronologically_default_sorted (l : List RawItem) :
    (iter_chronologically l _default_filter_func _default_sort_le).Pairwise
      (fun a b => _default_sort_le a b = true) :=
  List.sorted_mergeSort default_sort_le_trans default_sort_le_total _

theorem mem_iter_chronologically {α : Type} {x : α} {l : List α}
    {f : α → Bool} {le : α → α → Bool}
    (h : x ∈ iter_chronologically l f le) : x ∈ l :=
  List.mem_of_mem_filter (List.mem_mergeSort.mp h)

theorem allTsInt_iter_chronologically {l : List RawItem}
    {f : RawItem → Bool} {le : RawItem → RawItem → Bool} (h : allTsInt l) :
    allTsInt (iter_chronologically l f le) :=
  fun x hx => h x (mem_iter_chronologically hx)

theorem getTs_int {x : RawItem} {n : Int}
    (h : x.timestampMs = some (.int n)) : getTs x = .ok n := by
  simp [getTs, h, pyInt]

theorem tsVal_int {x : RawItem} {n : Int}
    (h : x.timestampMs = some (.int n)) : tsVal x = n := by
  simp [tsVal, h]

theorem chain_le_head_weaken {a b : Int} {l : List Int}
    (h : List.Chain' (· ≤ ·) (a :: l)) (hba : b ≤ a) :
    List.Chain' (· ≤ ·) (b :: l) := by
  cases l with
  | nil => simp
  | cons c cs =>
    rw [List.chain'_cons] at h ⊢
    exact ⟨le_trans hba h.1, h.2⟩

/-! Helper lemmas about the segmentation loop. -/

theorem unique_path_loop_ok (georeverse : Georeverse) (watched : Attr) :
    ∀ (ys : List RawItem) (cur : Coordinate) (lastTs : Int), allTsInt ys →
    ∃ evs, unique_path_loop georeverse watched cur lastTs ys = .ok evs ∧
      evs.length = switchCount georeverse watched cur ys := by
  intro ys
  induction ys with
  | nil => exact fun cur lastTs _ => ⟨[], rfl, rfl⟩
  | cons x rest ih =>
    intro cur lastTs h
    obtain ⟨n, hn⟩ := h x (List.mem_cons_self x rest)
    have hrest : allTsInt rest := fun y hy => h y (List.mem_cons_of_mem _ hy)
    by_cases hc : (resolveOf georeverse x).attr watched = cur.attr watched
    · obtain ⟨evs, he, hl⟩ := ih (resolveOf georeverse x) lastTs hrest
      exact ⟨evs, by simp [unique_path_loop, hc, he],
        by simp [switchCount, hc, hl]⟩
    · obtain ⟨evs, he, hl⟩ := ih (resolveOf georeverse x) n hrest
      refine ⟨⟨some cur, some lastTs, resolveOf georeverse x, n⟩ :: evs, ?_, ?_⟩
      · simp [unique_path_loop, hc, getTs_int hn, he]
      · simp [switchCount, hc, hl, Nat.add_comm]

theorem switchCount_le (georeverse : Georeverse) (watched : Attr) :
    ∀ (ys : List RawItem) (cur : Coordinate),
    switchCount georeverse watched cur ys ≤ ys.length := by
  intro ys
  induction ys with
  | nil => intro cur; simp [switchCount]
  | cons x rest ih =>
    intro cur
    have := ih (resolveOf georeverse x)
    by_cases hc : (resolveOf georeverse x).attr watched = cur.attr watched <;>
      simp [switchCount, hc, List.length_cons] <;> omega

theorem adjDiffCount_eq_switchCount (georeverse : Georeverse) (watched : Attr) :
    ∀ (ys : List RawItem) (x : RawItem),
    adjDiffCount georeverse watched (x :: ys)
      = switchCount georeverse watched (resolveOf georeverse x) ys := by
  intro ys
  induction ys with
  | nil => intro x; rfl
  | cons y rest ih => intro x; simp [adjDiffCount, switchCount, ih y]

theorem unique_path_loop_chain (georeverse : Georeverse) (watched : Attr) :
    ∀ (ys : List RawItem) (cur : Coordinate) (lastTs : Int), allTsInt ys →
    List.Chain' (· ≤ ·) (lastTs :: ys.map tsVal) →
    ∀ evs, unique_path_loop georeverse watched cur lastTs ys = .ok evs →
    List.Chain' (· ≤ ·) (lastTs :: evs.flatMap evTss) := by
  intro ys
  induction ys with
  | nil =>
    intro cur lastTs _ _ evs he
    have : evs = [] := by simpa [unique_path_loop] using he.symm
    subst this
    simp
  | cons x rest ih =>
    intro cur lastTs hall hch evs he
    obtain ⟨n, hn⟩ := hall x (List.mem_cons_self x rest)
    have hrest : allTsInt rest := fun y hy => hall y (List.mem_cons_of_mem _ hy)
    rw [List.map_cons, tsVal_int hn] at hch
    have h1 : lastTs ≤ n := (List.chain'_cons.mp hch).1
    have h2 : List.Chain' (· ≤ ·) (n :: rest.map tsVal) :=
      (List.chain'_cons.mp hch).2
    by_cases hc : (resolveOf georeverse x).attr watched = cur.attr watched
    · have he' : unique_path_loop georeverse watched (resolveOf georeverse x)
          lastTs rest = .ok evs := by
        simpa [unique_path_loop, hc] using he
      exact ih (resolveOf georeverse x) lastTs hrest
        (chain_le_head_weaken h2 h1) evs he'
    · simp only [unique_path_loop, hc, getTs_int hn, if_false, if_neg] at he
      cases hrec : unique_path_loop georeverse watched (resolveOf georeverse x)
          n rest with
      | error e => rw [hrec] at he; simp at he
      | ok evs2 =>
        rw [hrec] at he
        simp only [Except.ok.injEq] at he
        subst he
        have hchain2 := ih (resolveOf georeverse x) n hrest h2 evs2 hrec
        simp only [List.flatMap_cons, evTss, Option.toList, List.cons_append,
          List.nil_append, List.chain'_cons]
        exact ⟨le_refl lastTs, h1, hchain2⟩

/-! Helper lemmas about the gazetteer. -/

theorem sqDist_nonneg (p q : Rat × Rat) : 0 ≤ sqDist p q :=
  add_nonneg (sq_nonneg _) (sq_nonneg _)

theorem sqDist_self (p : Rat × Rat) : sqDist p p = 0 := by
  simp [sqDist]

theorem sqDist_eq_zero {p q : Rat × Rat} (h : sqDist p q = 0) : p = q := by
  unfold sqDist at h
  have h2 := (add_eq_zero_iff_of_nonneg (sq_nonneg _) (sq_nonneg _)).mp h
  have e1 : p.1 = q.1 :=
    sub_eq_zero.mp ((pow_eq_zero_iff two_ne_zero).mp h2.1)
  have e2 : p.2 = q.2 :=
    sub_eq_zero.mp ((pow_eq_zero_iff two_ne_zero).mp h2.2)
  exact Prod.ext e1 e2

theorem nearestAux_isSome (p : Rat × Rat) {es : List GeoEntry}
    (h : es ≠ []) : (nearestAux p es).isSome = true := by
  cases es with
  | nil => exact absurd rfl h
  | cons e rest =>
    cases hr : nearestAux p rest with
    | none => simp [nearestAux, hr]
    | some pr =>
      obtain ⟨j2, dj2⟩ := pr
      by_cases hd : sqDist e.pos p ≤ dj2 <;> simp [nearestAux, hr, hd]

theorem nearestAux_spec (p : Rat × Rat) :
    ∀ (es : List GeoEntry) (j : Nat) (dj : Rat),
    nearestAux p es = some (j, dj) →
    j < es.length ∧ dj = sqDist (es.getD j dummyEntry).pos p ∧
      ∀ k, k < es.length → dj ≤ sqDist (es.getD k dummyEntry).pos p := by
  intro es
  induction es with
  | nil => intro j dj h; simp [nearestAux] at h
  | cons e rest ih =>
    intro j dj h
    cases hr : nearestAux p rest with
    | none =>
      simp only [nearestAux, hr, Option.some.injEq, Prod.mk.injEq] at h
      obtain ⟨rfl, rfl⟩ := h
      have hnil : rest = [] := by
        cases rest with
        | nil => rfl
        | cons f fs =>
          have := @nearestAux_isSome p (f :: fs) (by simp)
          rw [hr] at this
          simp at this
      subst hnil
      refine ⟨by simp, by simp, ?_⟩
      intro k hk
      have hk0 : k = 0 := by simpa using Nat.lt_one_iff.mp (by simpa using hk)
      subst hk0
      simp
    | some pr =>
      obtain ⟨j2, dj2⟩ := pr
      obtain ⟨hjl, hdj, hmin⟩ := ih j2 dj2 hr
      by_cases hd : sqDist e.pos p ≤ dj2
      · simp only [nearestAux, hr, if_pos hd, Option.some.injEq,
          Prod.mk.injEq] at h
        obtain ⟨rfl, rfl⟩ := h
        refine ⟨by simp, by simp, ?_⟩
        intro k hk
        cases k with
        | zero => simp
        | succ k2 =>
          simp only [List.getD_cons_succ]
          exact le_trans hd (hmin k2 (by simpa using hk))
      · simp only [nearestAux, hr, if_neg hd, Option.some.injEq,
          Prod.mk.injEq] at h
        obtain ⟨rfl, rfl⟩ := h
        refine ⟨by simpa using Nat.succ_lt_succ hjl, by simpa using hdj, ?_⟩
        intro k hk
        cases k with
        | zero => simpa using le_of_not_le hd
        | succ k2 =>
          simp only [List.getD_cons_succ]
          exact hmin k2 (by simpa using hk)

theorem applyCountryWrites_map {β : Type} (c : List (String × String))
    (idxs : List Nat) (g : GeoEntry → β)
    (hg : ∀ e, g (setCountry c e) = g e) :
    ∀ (es : List GeoEntry) (i0 : Nat),
    (applyCountryWrites c idxs es i0).map g = es.map g := by
  intro es
  induction es with
  | nil => intro i0; rfl
  | cons e rest ih =>
    intro i0
    simp only [applyCountryWrites, List.map_cons, ih]
    congr 1
    split
    · exact hg e
    · rfl

theorem applyCountryWrites_length (c : List (String × String))
    (idxs : List Nat) :
    ∀ (es : List GeoEntry) (i0 : Nat),
    (applyCountryWrites c idxs es i0).length = es.length := by
  intro es
  induction es with
  | nil => intro i0; rfl
  | cons e rest ih => intro i0; simp [applyCountryWrites, ih]

theorem applyCountryWrites_getD (c : List (String × String))
    (idxs : List Nat) :
    ∀ (es : List GeoEntry) (i0 k : Nat), k < es.length →
    idxs.contains (i0 + k) = true →
    (applyCountryWrites c idxs es i0).getD k dummyEntry
      = setCountry c (es.getD k dummyEntry) := by
  intro es
  induction es with
  | nil => intro i0 k hk _; simp at hk
  | cons e rest ih =>
    intro i0 k hk hcont
    cases k with
    | zero =>
      rw [Nat.add_zero] at hcont
      simp only [applyCountryWrites, hcont, if_true, eq_self_iff_true,
        List.getD_cons_zero]
    | succ k2 =>
      have : i0 + 1 + k2 = i0 + (k2 + 1) := by omega
      simp only [applyCountryWrites, List.getD_cons_succ]
      exact ih (i0 + 1) k2 (by simpa using hk) (by rw [this]; exact hcont)

theorem query_singleton (gd : GeocodeData) (p : Rat × Rat) (j : Nat)
    (dj : Rat) (haux : nearestAux p gd.entries = some (j, dj)) :
    gd.query [p] = .ok
      ([setCountry gd.countries (gd.entries.getD j dummyEntry)],
        { gd with entries := applyCountryWrites gd.countries [j] gd.entries 0 }) := by
  have hj : j < gd.entries.length := (nearestAux_spec p gd.entries j dj haux).1
  have hne : gd.entries.isEmpty = false := by
    cases h : gd.entries with
    | nil => rw [h] at hj; simp at hj
    | cons a l => rfl
  unfold GeocodeData.query
  rw [if_neg (by simp), if_neg (by simp [hne])]
  have hidx : (nearestIdx p gd.entries).getD 0 = j := by
    simp [nearestIdx, haux]
  simp only [List.map_cons, List.map_nil, hidx]
  rw [applyCountryWrites_getD gd.countries [j] gd.entries 0 j hj (by simp)]

/-- Faithfulness of the pure resolver: against a gazetteer with at least
one entry, the stateful resolution path of the source
(init_with_georeverse, through reverse_coordinates and query) succeeds
and returns exactly the coordinate computed by GeocodeData.resolve. -/
theorem init_with_georeverse_resolve (gd : GeocodeData) (la lo : Rat)
    (hne : gd.entries ≠ []) :
    ∃ gd2, init_with_georeverse gd la lo = .ok (gd.resolve la lo, gd2) := by
  obtain ⟨pr, haux⟩ :=
    Option.isSome_iff_exists.mp (nearestAux_isSome (la, lo) hne)
  obtain ⟨j, dj⟩ := pr
  refine ⟨{ gd with
    entries := applyCountryWrites gd.countries [j] gd.entries 0 }, ?_⟩
  unfold init_with_georeverse reverse_coordinates
  rw [query_singleton gd (la, lo) j dj haux]
  simp [GeocodeData.resolve, nearestIdx, haux, setCountry, lookupCountry]

/-! Claim theorems. -/

/-- C2: the claim demands an InsufficientDataError for filtered inputs
of length 0 or 1; this theorem evaluates the code at those inputs: the
empty filtered input raises IndexError (list index out of range at
locations_chronological[0]), and the one-sample input silently succeeds,
yielding exactly the initial event.  No InsufficientDataError exists
anywhere in the repository. -/
theorem claim_C2_observed :
    iter_unique_path_by_attribute demoReverse .country []
      _default_filter_func _default_sort_le = .error .indexError ∧
    iter_unique_path_by_attribute demoReverse .country [wit0]
      _default_filter_func _default_sort_le
      = .ok [⟨none, none, ⟨0, 0, "c", "X"⟩, 100⟩] := by
  constructor
  · with_unfolding_all rfl
  · with_unfolding_all rfl

/-- C3: segmenting the four samples (100, US), (200, US), (300, FR),
(400, FR) on country yields exactly the initial event
(null, null, US-place, 100) and one transition whose previous segment
is the US place with entry timestamp 100 and whose next place is the FR
place at timestamp 300. -/
theorem claim_C3 :
    iter_unique_path_by_attribute gd3.resolve .country samples3
      _default_filter_func _default_sort_le = .ok
      [⟨none, none, ⟨10, 10, "USCity", "US"⟩, 100⟩,
       ⟨some ⟨10, 10, "USCity", "US"⟩, some 100,
        ⟨50, 50, "FRCity", "FR"⟩, 300⟩] := by
  with_unfolding_all rfl

/-- C10: a filtered input of exactly two samples yields exactly the
initial event and terminates without error, whatever the two samples
resolve to — the comparison loop (range(1, n - 1) with n = 2) is never
entered, so the result does not depend on the second sample's
resolution at all. -/
theorem claim_C10 (georeverse : Georeverse) (watched : Attr)
    (locations : List RawItem) (filter_func : RawItem → Bool)
    (le : RawItem → RawItem → Bool) (l0 l1 : RawItem) (n0 : Int)
    (hlc : iter_chronologically locations filter_func le = [l0, l1])
    (hts : getTs l0 = .ok n0) :
    iter_unique_path_by_attribute georeverse watched locations filter_func le
      = .ok [⟨none, none, resolveOf georeverse l0, n0⟩] := by
  simp [iter_unique_path_by_attribute, hlc, hts]

/-- Witness for C10 at a concrete input whose two samples resolve to
different countries ("X" at latitude 0, "Y" at latitude 10 under
demoReverse): still exactly one event. -/
theorem claim_C10_witness :
    iter_unique_path_by_attribute demoReverse .country [wit0, wit1]
      _default_filter_func _default_sort_le
      = .ok [⟨none, none, resolveOf demoReverse wit0, 100⟩] :=
  claim_C10 demoReverse .country [wit0, wit1] _default_filter_func
    _default_sort_le wit0 wit1 100 (by with_unfolding_all rfl)
    (by with_unfolding_all rfl)

/-- C1 counterexample: three samples whose watched attribute differs
between the first sample (US) and the second sample (FR) and is equal
thereafter.  The claim asserts this difference produces a transition
event, but the code emits the initial event only: the loop starts with
current_coordinate initialised from the second sample, so the boundary
between the first and second samples is never compared. -/
theorem claim_C1_counterexample :
    (resolveOf gd3.resolve (mkItem 100000000 100000000 (.int 100))).attr
      .country = "US" ∧
    (resolveOf gd3.resolve (mkItem 500000000 500000000 (.int 200))).attr
      .country = "FR" ∧
    iter_unique_path_by_attribute gd3.resolve .country samplesFirstDiffer
      _default_filter_func _default_sort_le
      = .ok [⟨none, none, ⟨10, 10, "USCity", "US"⟩, 100⟩] := by
  refine ⟨?_, ?_, ?_⟩ <;> with_unfolding_all rfl

/-- C1 amended: the segmenter emits the initial event built from the
first filtered sample, and then exactly one transition event per
boundary with differing watched attribute between consecutive samples
from the second sample onward — the current resolved place is
initialised from the second sample, the boundary between the first and
second samples is never compared, and runs sharing the attribute
contribute zero events. -/
theorem claim_C1_amended (georeverse : Georeverse) (watched : Attr)
    (locations : List RawItem) (filter_func : RawItem → Bool)
    (le : RawItem → RawItem → Bool) (l0 l1 : RawItem)
    (rest : List RawItem)
    (hlc : iter_chronologically locations filter_func le = l0 :: l1 :: rest)
    (hall : allTsInt (l0 :: l1 :: rest)) :
    ∃ n0 evs, getTs l0 = .ok n0 ∧
      iter_unique_path_by_attribute georeverse watched locations filter_func
        le = .ok (⟨none, none, resolveOf georeverse l0, n0⟩ :: evs) ∧
      evs.length = adjDiffCount georeverse watched (l1 :: rest) := by
  obtain ⟨n0, hn0⟩ := hall l0 (by simp)
  have hts := getTs_int hn0
  refine ⟨n0, ?_⟩
  cases rest with
  | nil =>
    exact ⟨[], hts, by simp [iter_unique_path_by_attribute, hlc, hts], rfl⟩
  | cons l2 rest2 =>
    have hrest : allTsInt (l2 :: rest2) := fun y hy =>
      hall y (List.mem_cons_of_mem _ (List.mem_cons_of_mem _ hy))
    obtain ⟨evs, he, hl⟩ := unique_path_loop_ok georeverse watched
      (l2 :: rest2) (resolveOf georeverse l1) n0 hrest
    refine ⟨evs, hts, ?_, ?_⟩
    · simp [iter_unique_path_by_attribute, hlc, hts, he]
    · rw [hl, adjDiffCount_eq_switchCount]

/-- Witness for the amended C1 at a concrete three-sample input. -/
theorem claim_C1_witness :
    ∃ n0 evs, getTs wit0 = .ok n0 ∧
      iter_unique_path_by_attribute demoReverse .country [wit0, wit1, wit2]
        _default_filter_func _default_sort_le
        = .ok (⟨none, none, resolveOf demoReverse wit0, n0⟩ :: evs) ∧
      evs.length = adjDiffCount demoReverse .country [wit1, wit2] :=
  claim_C1_amended demoReverse .country [wit0, wit1, wit2]
    _default_filter_func _default_sort_le wit0 wit1 [wit2]
    (by with_unfolding_all rfl)
    (by
      intro x hx
      simp [wit0, wit1, wit2, mkItem] at hx
      rcases hx with rfl | rfl | rfl
      exacts [⟨100, rfl⟩, ⟨200, rfl⟩, ⟨300, rfl⟩])

/-- C7: for a filtered result of length n with n at least 2, strictly
increasing (integer) timestamps, the segmenter succeeds and emits at
most n - 1 events, and the first emitted event has a null previous
place and null previous timestamp. -/
theorem claim_C7 (georeverse : Georeverse) (watched : Attr)
    (locations : List RawItem) (filter_func : RawItem → Bool)
    (le : RawItem → RawItem → Bool) (lc : List RawItem)
    (hlc : iter_chronologically locations filter_func le = lc)
    (hlen : 2 ≤ lc.length) (hall : allTsInt lc)
    (hinc : List.Chain' (fun a b => tsVal a < tsVal b) lc) :
    ∃ ev0 evs,
      iter_unique_path_by_attribute georeverse watched locations filter_func
        le = .ok (ev0 :: evs) ∧
      ev0.previousPlace = none ∧ ev0.previousTimestampMs = none ∧
      (ev0 :: evs).length ≤ lc.length - 1 := by
  cases lc with
  | nil => simp at hlen
  | cons l0 rest =>
    cases rest with
    | nil => simp at hlen
    | cons l1 rest2 =>
      obtain ⟨n0, hn0⟩ := hall l0 (by simp)
      have hts := getTs_int hn0
      cases rest2 with
      | nil =>
        exact ⟨⟨none, none, resolveOf georeverse l0, n0⟩, [],
          by simp [iter_unique_path_by_attribute, hlc, hts], rfl, rfl,
          by simp⟩
      | cons l2 rest3 =>
        have hrest : allTsInt (l2 :: rest3) := fun y hy =>
          hall y (List.mem_cons_of_mem _ (List.mem_cons_of_mem _ hy))
        obtain ⟨evs, he, hl⟩ := unique_path_loop_ok georeverse watched
          (l2 :: rest3) (resolveOf georeverse l1) n0 hrest
        refine ⟨⟨none, none, resolveOf georeverse l0, n0⟩, evs,
          by simp [iter_unique_path_by_attribute, hlc, hts, he], rfl, rfl,
          ?_⟩
        have hb := switchCount_le georeverse watched (l2 :: rest3)
          (resolveOf georeverse l1)
        rw [← hl] at hb
        simp only [List.length_cons] at hb ⊢
        omega

/-- Witness for C7 at a concrete three-sample strictly increasing
input. -/
theorem claim_C7_witness :
    ∃ ev0 evs,
      iter_unique_path_by_attribute demoReverse .country [wit0, wit1, wit2]
        _default_filter_func _default_sort_le = .ok (ev0 :: evs) ∧
      ev0.previousPlace = none ∧ ev0.previousTimestampMs = none ∧
      (ev0 :: evs).length ≤ [wit0, wit1, wit2].length - 1 :=
  claim_C7 demoReverse .country [wit0, wit1, wit2] _default_filter_func
    _default_sort_le [wit0, wit1, wit2] (by with_unfolding_all rfl)
    (by simp)
    (by
      intro x hx
      simp [wit0, wit1, wit2, mkItem] at hx
      rcases hx with rfl | rfl | rfl
      exacts [⟨100, rfl⟩, ⟨200, rfl⟩, ⟨300, rfl⟩])
    (by
      rw [List.chain'_cons, List.chain'_cons]
      refine ⟨?_, ?_, List.chain'_singleton _⟩ <;> with_unfolding_all decide)

/-- C6 counterexample: two records whose timestampMs values are the
strings "9" and "10" — both accepted by the default filter, both
parseable to int64.  Python compares string keys lexicographically, so
the chronological filter processes the numerically later sample ("10")
first: the processed order is not ascending in timestampMs. -/
theorem claim_C6_counterexample :
    ¬ List.Chain' (fun a b => tsVal a ≤ tsVal b)
      (iter_chronologically [item9, item10] _default_filter_func
        _default_sort_le) := by
  have h : iter_chronologically [item9, item10] _default_filter_func
      _default_sort_le = [item10, item9] := by with_unfolding_all rfl
  rw [h]
  intro hch
  have h1 : tsVal item10 ≤ tsVal item9 := (List.chain'_cons.mp hch).1
  have h2 : tsVal item10 = 10 := by with_unfolding_all rfl
  have h3 : tsVal item9 = 9 := by with_unfolding_all rfl
  rw [h2, h3] at h1
  omega

/-- C6 amended: restricted to integer timestampMs values (string
timestamps sort lexicographically, not numerically), the default
filter-and-sort processes samples in non-decreasing timestampMs order
(not strictly: equal timestamps are both kept), and consequently the
timestamps across the emitted event sequence — each event's previous
timestamp followed by its next timestamp — are non-decreasing. -/
theorem claim_C6_amended (georeverse : Georeverse) (watched : Attr)
    (locations : List RawItem) (hall : allTsInt locations) :
    List.Chain' (fun a b => tsVal a ≤ tsVal b)
      (iter_chronologically locations _default_filter_func
        _default_sort_le) ∧
    ∀ evs, iter_unique_path_by_attribute georeverse watched locations
        _default_filter_func _default_sort_le = .ok evs →
      List.Chain' (· ≤ ·) (evs.flatMap evTss) := by
  have hallc := @allTsInt_iter_chronologically locations
    _default_filter_func _default_sort_le hall
  have hchain : List.Chain' (fun a b => tsVal a ≤ tsVal b)
      (iter_chronologically locations _default_filter_func
        _default_sort_le) := by
    refine List.Pairwise.chain' ?_
    refine (iter_chronologically_default_sorted locations).imp_of_mem ?_
    intro a b ha hb hr
    obtain ⟨m, hm⟩ := hallc a ha
    obtain ⟨n, hn⟩ := hallc b hb
    rw [tsVal_int hm, tsVal_int hn]
    unfold _default_sort_le _default_key_func at hr
    rw [hm, hn] at hr
    simpa [pyKeyLe] using hr
  refine ⟨hchain, ?_⟩
  intro evs he
  cases hlc : iter_chronologically locations _default_filter_func
      _default_sort_le with
  | nil => simp [iter_unique_path_by_attribute, hlc] at he
  | cons l0 rest =>
    rw [hlc] at hallc hchain
    obtain ⟨n0, hn0⟩ := hallc l0 (by simp)
    have hts := getTs_int hn0
    cases rest with
    | nil =>
      simp only [iter_unique_path_by_attribute, hlc, hts,
        Except.ok.injEq] at he
      subst he
      simp [evTss]
    | cons l1 rest2 =>
      cases rest2 with
      | nil =>
        simp only [iter_unique_path_by_attribute, hlc, hts,
          Except.ok.injEq] at he
        subst he
        simp [evTss]
      | cons l2 rest3 =>
        have hrest : allTsInt (l2 :: rest3) := fun y hy =>
          hallc y (List.mem_cons_of_mem _ (List.mem_cons_of_mem _ hy))
        obtain ⟨evs2, he2, -⟩ := unique_path_loop_ok georeverse watched
          (l2 :: rest3) (resolveOf georeverse l1) n0 hrest
        simp only [iter_unique_path_by_attribute, hlc, hts, he2,
          Except.ok.injEq] at he
        subst he
        have hmapchain : List.Chain' (· ≤ ·)
            ((l0 :: l1 :: l2 :: rest3).map tsVal) :=
          (List.chain'_map tsVal).mpr hchain
        rw [List.map_cons, List.map_cons, tsVal_int hn0] at hmapchain
        have h1 : n0 ≤ tsVal l1 := (List.chain'_cons.mp hmapchain).1
        have h2 : List.Chain' (· ≤ ·) (tsVal l1 :: (l2 :: rest3).map tsVal) :=
          (List.chain'_cons.mp hmapchain).2
        have hloopchain := unique_path_loop_chain georeverse watched
          (l2 :: rest3) (resolveOf georeverse l1) n0 hrest
          (chain_le_head_weaken h2 h1) evs2 he2
        simpa [evTss] using hloopchain

/-- Witness for the amended C6 at a concrete integer-timestamp input. -/
theorem claim_C6_witness :
    List.Chain' (fun a b => tsVal a ≤ tsVal b)
      (iter_chronologically [wit0, wit1, wit2] _default_filter_func
        _default_sort_le) ∧
    ∀ evs, iter_unique_path_by_attribute demoReverse .country
        [wit0, wit1, wit2] _default_filter_func _default_sort_le
        = .ok evs →
      List.Chain' (· ≤ ·) (evs.flatMap evTss) :=
  claim_C6_amended demoReverse .country [wit0, wit1, wit2]
    (by
      intro x hx
      simp [wit0, wit1, wit2, mkItem] at hx
      rcases hx with rfl | rfl | rfl
      exacts [⟨100, rfl⟩, ⟨200, rfl⟩, ⟨300, rfl⟩])

/-- C8 counterexample: the record whose timestampMs is the string "0"
is a record with a zero timestamp in the spec's reading (a string
parseable to the int64 value 0), yet the default filter keeps it: the
Python comparison "0" != 0 between a string and an int is True. -/
theorem claim_C8_counterexample :
    timestampMissingOrZero itemStrZero
      ∧ _default_filter_func itemStrZero = true := by
  constructor
  · exact Or.inr (by with_unfolding_all rfl)
  · with_unfolding_all rfl

/-- C8 amended: for every input list and every keep predicate and sort
key into a linearly ordered type, the chronological filter returns
exactly the records satisfying keep (as a permutation of the filtered
input), arranged in ascending key order, and an empty filtered input
yields the empty output without any error; the default keep predicate
rejects exactly the records whose timestampMs is missing or is the
integer 0 — string values, including "0", are always kept. -/
theorem claim_C8_amended :
    (∀ (α κ : Type) [inst : LinearOrder κ] (key : α → κ) (keep : α → Bool)
      (l : List α),
      (iter_chronologically l keep (fun a b => decide (key a ≤ key b))).Perm
        (l.filter keep) ∧
      (iter_chronologically l keep
        (fun a b => decide (key a ≤ key b))).Pairwise
        (fun a b => key a ≤ key b) ∧
      (l.filter keep = [] →
        iter_chronologically l keep (fun a b => decide (key a ≤ key b))
          = [])) ∧
    (∀ item : RawItem, _default_filter_func item = false ↔
      (item.timestampMs = none ∨ item.timestampMs = some (.int 0))) := by
  constructor
  · intro α κ inst key keep l
    refine ⟨List.mergeSort_perm _ _, ?_, ?_⟩
    · have hs := @List.sorted_mergeSort α
        (fun a b => decide (key a ≤ key b))
        (fun a b c hab hbc => by
          simp only [decide_eq_true_eq] at *
          exact le_trans hab hbc)
        (fun a b => by simpa using le_total (key a) (key b))
        (l.filter keep)
      exact hs.imp (fun h => of_decide_eq_true h)
    · intro h
      unfold iter_chronologically
      rw [h]
      simp
  · intro item
    rcases item with ⟨la, lo, ts⟩
    rcases ts with _ | (n | s) <;> simp [_default_filter_func]

/-- Witness for the amended C8: an input whose only record lacks a
timestamp filters to the empty output without error, and the record
carrying the integer timestamp 0 is rejected. -/
theorem claim_C8_witness :
    iter_chronologically [(⟨0, 0, none⟩ : RawItem)] _default_filter_func
      (fun a b => decide (tsVal a ≤ tsVal b)) = [] ∧
    _default_filter_func ⟨0, 0, some (.int 0)⟩ = false := by
  constructor
  · exact (claim_C8_amended.1 RawItem Int tsVal _default_filter_func
      [⟨0, 0, none⟩]).2.2 (by with_unfolding_all rfl)
  · exact (claim_C8_amended.2 ⟨0, 0, some (.int 0)⟩).mpr (Or.inr rfl)

/-- C4 counterexample: the query on an empty query-point set raises the
ValueError of the bare except/raise branch — it is propagated as a
lookup error, not turned into a "not found" result, and no
InvalidQueryError exists anywhere in the repository. -/
theorem claim_C4_counterexample :
    GeocodeData.query gdXX [] = .error .valueError := rfl

/-- C4 amended: an empty query-point set — and any other failure inside
the nearest-neighbour search, all of which the bare except converts —
raises the ValueError "Could not identify from coordinates ..." instead
of yielding a not-found result (there is no InvalidQueryError; a
malformed query fails with this same ValueError); a nonempty query
against a nonempty gazetteer succeeds with one result per query
point. -/
theorem claim_C4_amended (gd : GeocodeData)
    (coordinates : List (Rat × Rat)) :
    (coordinates = [] → gd.query coordinates = .error .valueError) ∧
    (coordinates ≠ [] → gd.entries ≠ [] →
      ∃ res gd2, gd.query coordinates = .ok (res, gd2) ∧
        res.length = coordinates.length) := by
  constructor
  · intro h
    subst h
    rfl
  · intro hc he
    unfold GeocodeData.query
    rw [if_neg (by simpa using hc), if_neg (by simpa using he)]
    exact ⟨_, _, rfl, by simp⟩

/-- Witness for the amended C4 at the concrete single-entry
gazetteer. -/
theorem claim_C4_witness :
    GeocodeData.query gdXX ([] : List (Rat × Rat)) = .error .valueError ∧
    ∃ res gd2, GeocodeData.query gdXX [((0 : Rat), (0 : Rat))]
      = .ok (res, gd2) ∧ res.length = 1 := by
  constructor
  · exact (claim_C4_amended gdXX []).1 rfl
  · obtain ⟨res, gd2, h1, h2⟩ := (claim_C4_amended gdXX [(0, 0)]).2
      (by simp) (by simp [gdXX])
    exact ⟨res, gd2, h1, by simpa using h2⟩

/-- C5 counterexample: one successful query against the single-entry
gazetteer returns a changed gazetteer: the stored location dict gains
the country key "Originland", so the stored locations are not left
unchanged by queries. -/
theorem claim_C5_counterexample :
    GeocodeData.query gdXX [(0, 0)] =
      .ok ([⟨0, 0, "XX", "Origin", some "Originland"⟩], gdXXafter) ∧
    gdXXafter ≠ gdXX := by
  constructor
  · with_unfolding_all rfl
  · with_unfolding_all decide

/-- C5 amended: a successful query leaves the country table, the
indexed coordinates, and the country codes and city names of the stored
locations unchanged; only the country key of the stored location dicts
it returns is (re)written — so queries are not read-only on the
gazetteer, though they never change what subsequent queries resolve. -/
theorem claim_C5_amended (gd : GeocodeData)
    (coordinates : List (Rat × Rat)) (res : List GeoEntry)
    (gd2 : GeocodeData) (h : gd.query coordinates = .ok (res, gd2)) :
    gd2.countries = gd.countries ∧
    gd2.entries.map GeoEntry.pos = gd.entries.map GeoEntry.pos ∧
    gd2.entries.map GeoEntry.country_code
      = gd.entries.map GeoEntry.country_code ∧
    gd2.entries.map GeoEntry.city = gd.entries.map GeoEntry.city := by
  unfold GeocodeData.query at h
  by_cases h1 : coordinates.isEmpty
  · rw [if_pos h1] at h
    exact absurd h (by simp)
  · rw [if_neg h1] at h
    by_cases h2 : gd.entries.isEmpty
    · rw [if_pos h2] at h
      exact absurd h (by simp)
    · rw [if_neg h2] at h
      simp only [Except.ok.injEq, Prod.mk.injEq] at h
      obtain ⟨-, hgd2⟩ := h
      rw [← hgd2]
      exact ⟨rfl,
        applyCountryWrites_map _ _ GeoEntry.pos (fun e => rfl) _ _,
        applyCountryWrites_map _ _ GeoEntry.country_code (fun e => rfl) _ _,
        applyCountryWrites_map _ _ GeoEntry.city (fun e => rfl) _ _⟩

/-- Witness for the amended C5 at the concrete single-entry query. -/
theorem claim_C5_witness :
    gdXXafter.countries = gdXX.countries ∧
    gdXXafter.entries.map GeoEntry.pos = gdXX.entries.map GeoEntry.pos ∧
    gdXXafter.entries.map GeoEntry.country_code
      = gdXX.entries.map GeoEntry.country_code ∧
    gdXXafter.entries.map GeoEntry.city
      = gdXX.entries.map GeoEntry.city :=
  claim_C5_amended gdXX [(0, 0)]
    [⟨0, 0, "XX", "Origin", some "Originland"⟩] gdXXafter
    (by with_unfolding_all rfl)

/-- C9: querying the exact coordinates of a reference entry returns the
city and table-resolved country of an entry located at exactly those
coordinates — and of that entry itself whenever it is the only entry at
its coordinates; and the concrete single-entry gazetteer
(0, 0, "XX", "Origin") with country table XX -> Originland resolves the
query (0.001, 0.001) to city "Origin", country "Originland". -/
theorem claim_C9 :
    (∀ (gd : GeocodeData) (i : Nat), i < gd.entries.length →
      ∃ j, j < gd.entries.length ∧
        (gd.entries.getD j dummyEntry).pos
          = (gd.entries.getD i dummyEntry).pos ∧
        (∃ gd2, gd.query [(gd.entries.getD i dummyEntry).pos]
          = .ok ([setCountry gd.countries (gd.entries.getD j dummyEntry)],
            gd2)) ∧
        ((∀ k, k < gd.entries.length →
            (gd.entries.getD k dummyEntry).pos
              = (gd.entries.getD i dummyEntry).pos → k = i) → j = i)) ∧
    init_with_georeverse gdXX (1 / 1000) (1 / 1000)
      = .ok (⟨1 / 1000, 1 / 1000, "Origin", "Originland"⟩, gdXXafter) := by
  constructor
  · intro gd i hi
    have hne : gd.entries ≠ [] := by
      intro h
      rw [h] at hi
      simp at hi
    obtain ⟨pr, haux⟩ := Option.isSome_iff_exists.mp
      (nearestAux_isSome (gd.entries.getD i dummyEntry).pos hne)
    obtain ⟨j, dj⟩ := pr
    obtain ⟨hjl, hdj, hmin⟩ :=
      nearestAux_spec (gd.entries.getD i dummyEntry).pos gd.entries j dj haux
    have hd0 : dj = 0 := le_antisymm
      (by simpa [sqDist_self] using hmin i hi)
      (hdj ▸ sqDist_nonneg _ _)
    have hpos : (gd.entries.getD j dummyEntry).pos
        = (gd.entries.getD i dummyEntry).pos :=
      sqDist_eq_zero (by rw [← hdj, hd0])
    refine ⟨j, hjl, hpos, ⟨_, query_singleton gd _ j dj haux⟩, ?_⟩
    intro huniq
    exact huniq j hjl hpos
  · with_unfolding_all rfl

/-- Witness for C9's universal part at the single-entry gazetteer. -/
theorem claim_C9_witness :
    ∃ j, j < gdXX.entries.length ∧
      (gdXX.entries.getD j dummyEntry).pos
        = (gdXX.entries.getD 0 dummyEntry).pos ∧
      (∃ gd2, gdXX.query [(gdXX.entries.getD 0 dummyEntry).pos]
        = .ok ([setCountry gdXX.countries (gdXX.entries.getD 0 dummyEntry)],
          gd2)) ∧
      ((∀ k, k < gdXX.entries.length →
          (gdXX.entries.getD k dummyEntry).pos
            = (gdXX.entries.getD 0 dummyEntry).pos → k = 0) → j = 0) := by
  obtain ⟨j, hj, hpos, hq, huniq⟩ :=
    claim_C9.1 gdXX 0 (by with_unfolding_all decide)
  have hj0 : j = 0 := by
    have : j < 1 := by simpa [gdXX] using hj
    omega
  subst hj0
  exact ⟨0, hj, hpos, hq, huniq⟩

end Geodeconstructor
